import Mathlib

/-!
Verification of the puppeteer-vision-mcp scraper core against its design
specification.  The TypeScript sources are shallowly embedded as Lean
definitions: the interaction loop (`handlePageInteractions`), the action
executor (`executeAction`), the cross-frame text click
(`clickElementsByText`), the vision classifier wrapper
(`analyzePageWithAI`), the Turndown code-block rule
(`codeBlockReplacement`) and the tool-facing size cap
(`scrapeToolResult`).  External capabilities (the browser page, the
vision model, the file system) are modelled as oracles supplied through
environment records; observable side effects are recorded as explicit
event lists so that the control-flow claims can be stated over traces.
-/

/-! ## Data model: AI actions (src/types/index.ts, `AIAction`) -/

/-- The `action` discriminator of `AIAction`:
`'click' | 'scroll' | 'type' | 'wait' | 'none'`. -/
inductive ActionKind where
  | click
  | scroll
  | type
  | wait
  | none
deriving DecidableEq, Repr

/-- The `AIAction` interface.  Optional TypeScript fields become `Option`s;
`scrollAmount` and `waitTime` are numbers, modelled as integers. -/
structure AIAction where
  action : ActionKind
  targetText : Option String
  targetSelector : Option String
  inputText : Option String
  scrollAmount : Option Int
  waitTime : Option Int
  reason : Option String
deriving DecidableEq, Repr

/-- An `AIAction` carrying only the `none` kind and a reason, as produced
by the classifier's fallback paths. -/
def noneAction (reason : String) : AIAction :=
  ⟨ActionKind.none, Option.none, Option.none, Option.none, Option.none,
    Option.none, Option.some reason⟩

/-- `action.action === 'none'` (the loop's short-circuit test). -/
def isNoneAction (a : AIAction) : Bool :=
  match a.action with
  | ActionKind.none => true
  | _ => false

/-! ## The interaction loop (src/ai/page-interactions.ts,
`handlePageInteractions`)

The loop's interactions with the outside world are oracles indexed by the
attempt counter: `classify i` is the result of `analyzePageWithAI` on the
screenshot of attempt `i`, `execOk i` the boolean returned by
`executeAction`, and `persistOk i` whether `fs.promises.writeFile`
resolves for the diagnostic screenshot of attempt `i`.  The loop emits an
event trace recording each observable step in program order. -/

structure LoopEnv where
  classify : Nat → AIAction
  execOk : Nat → Bool
  persistOk : Nat → Bool

/-- One observable step of the loop, in program order. -/
inductive LoopEvent where
  | screenshot (attempt : Nat)
  | persistFail (attempt : Nat)
  | classify (attempt : Nat)
  | execute (attempt : Nat) (ok : Bool)
  | settle (ms : Nat)
deriving DecidableEq, Repr

/-- What the loop returns: the `interactionFound` boolean (the function's
actual return value) together with the final value of the `attempts`
counter. -/
structure LoopResult where
  interactionFound : Bool
  attemptsUsed : Nat
deriving DecidableEq, Repr

/-- The body of the `while (attempts < maxAttempts)` loop, structurally
recursive on `remaining = maxAttempts - attempts`.  Each iteration:
screenshot; `await fs.promises.writeFile` (NOT wrapped in try/catch, so a
rejection propagates — modelled as `Except.error`); classify; return
`interactionFound` if the action is `'none'`; otherwise execute, and on
success set `interactionFound` and settle for 2000 ms before the next
iteration. -/
def loopAux (env : LoopEnv) :
    Nat → Nat → Bool → List LoopEvent × Except Nat LoopResult
  | 0, att, found => ([], Except.ok ⟨found, att⟩)
  | remaining+1, att, found =>
    if env.persistOk att then
      if isNoneAction (env.classify att) then
        ([LoopEvent.screenshot att, LoopEvent.classify att],
          Except.ok ⟨found, att⟩)
      else
        let ok := env.execOk att
        let rest := loopAux env remaining (att+1) (found || ok)
        (LoopEvent.screenshot att :: LoopEvent.classify att ::
            LoopEvent.execute att ok ::
            ((if ok then [LoopEvent.settle 2000] else []) ++ rest.1),
          rest.2)
    else
      ([LoopEvent.screenshot att, LoopEvent.persistFail att],
        Except.error att)

/-- `handlePageInteractions(page, maxAttempts)`: run the loop from
`attempts = 0`, `interactionFound = false`. -/
def handlePageInteractions (env : LoopEnv) (maxAttempts : Nat) :
    List LoopEvent × Except Nat LoopResult :=
  loopAux env maxAttempts 0 false

/-- Number of classifier calls recorded in a trace. -/
def classifyCount : List LoopEvent → Nat
  | [] => 0
  | LoopEvent.classify _ :: rest => classifyCount rest + 1
  | _ :: rest => classifyCount rest

/-- Number of screenshots recorded in a trace. -/
def screenshotCount : List LoopEvent → Nat
  | [] => 0
  | LoopEvent.screenshot _ :: rest => screenshotCount rest + 1
  | _ :: rest => screenshotCount rest

theorem classifyCount_append (a b : List LoopEvent) :
    classifyCount (a ++ b) = classifyCount a + classifyCount b := by
  induction a with
  | nil => simp [classifyCount]
  | cons e rest ih =>
    cases e <;> simp [classifyCount, ih] <;> omega

theorem screenshotCount_append (a b : List LoopEvent) :
    screenshotCount (a ++ b) = screenshotCount a + screenshotCount b := by
  induction a with
  | nil => simp [screenshotCount]
  | cons e rest ih =>
    cases e <;> simp [screenshotCount, ih] <;> omega

/-- C2: with `maxAttempts = 0` the `while` guard fails immediately: the
trace is empty (zero screenshots, zero classifier calls) and the loop
returns `interactionFound = false` with the `attempts` counter at 0. -/
theorem c2_zero_attempts (env : LoopEnv) :
    handlePageInteractions env 0 = ([], Except.ok ⟨false, 0⟩) ∧
    screenshotCount (handlePageInteractions env 0).1 = 0 ∧
    classifyCount (handlePageInteractions env 0).1 = 0 :=
  ⟨rfl, rfl, rfl⟩

/-- An environment whose screenshot persistence fails on the very first
attempt (e.g. the working directory is not writable), with a classifier
that would otherwise keep recommending an action. -/
def envPersistFails : LoopEnv :=
  ⟨fun _ => ⟨ActionKind.scroll, Option.none, Option.none, Option.none,
      Option.some 500, Option.none, Option.some "scroll down"⟩,
    fun _ => true, fun _ => false⟩

/-- C3: the `await fs.promises.writeFile(filename, buffer)` that persists
the diagnostic screenshot is not wrapped in any try/catch, so a rejected
write propagates out of `handlePageInteractions`: the loop aborts
(`Except.error`) before the classifier is ever consulted, instead of
continuing best-effort as the specification requires. -/
theorem c3_persist_failure_aborts :
    (handlePageInteractions envPersistFails 1).2 = Except.error 0 ∧
    classifyCount (handlePageInteractions envPersistFails 1).1 = 0 ∧
    (handlePageInteractions envPersistFails 1).1 =
      [LoopEvent.screenshot 0, LoopEvent.persistFail 0] := by
  exact ⟨rfl, rfl, rfl⟩

/-! ## C1: termination of the loop -/

theorem classifyCount_settleOpt (ok : Bool) :
    classifyCount (if ok then [LoopEvent.settle 2000] else []) = 0 := by
  cases ok <;> rfl

theorem screenshotCount_settleOpt (ok : Bool) :
    screenshotCount (if ok then [LoopEvent.settle 2000] else []) = 0 := by
  cases ok <;> rfl

theorem classify_not_mem_settleOpt (ok : Bool) (j : Nat) :
    LoopEvent.classify j ∉ (if ok then [LoopEvent.settle 2000] else []) := by
  cases ok <;> simp

/-- If persistence succeeds and the classifier never returns `'none'`
throughout a window of `remaining` attempts starting at `att`, the loop
consumes the whole window: one classifier call and one screenshot per
attempt, and the `attempts` counter exits at `att + remaining`. -/
theorem loopAux_no_none (env : LoopEnv) :
    ∀ remaining att found,
      (∀ j, j < remaining → env.persistOk (att + j) = true) →
      (∀ j, j < remaining → isNoneAction (env.classify (att + j)) = false) →
      classifyCount (loopAux env remaining att found).1 = remaining ∧
      screenshotCount (loopAux env remaining att found).1 = remaining ∧
      ∃ b, (loopAux env remaining att found).2 =
        Except.ok ⟨b, att + remaining⟩ := by
  intro remaining
  induction remaining with
  | zero =>
    intro att found _ _
    exact ⟨rfl, rfl, found, rfl⟩
  | succ n ih =>
    intro att found hp hc
    have hp0 : env.persistOk att = true := by
      have := hp 0 (Nat.succ_pos n); simpa using this
    have hc0 : isNoneAction (env.classify att) = false := by
      have := hc 0 (Nat.succ_pos n); simpa using this
    have hpS : ∀ j, j < n → env.persistOk (att + 1 + j) = true := by
      intro j hj
      have := hp (j + 1) (by omega)
      simpa [Nat.add_assoc, Nat.add_comm 1 j] using this
    have hcS : ∀ j, j < n → isNoneAction (env.classify (att + 1 + j)) = false := by
      intro j hj
      have := hc (j + 1) (by omega)
      simpa [Nat.add_assoc, Nat.add_comm 1 j] using this
    obtain ⟨h1, h2, b, h3⟩ := ih (att + 1) (found || env.execOk att) hpS hcS
    refine ⟨?_, ?_, b, ?_⟩
    · simp only [loopAux, hp0, hc0, if_true, Bool.false_eq_true, if_false]
      simp [classifyCount, classifyCount_append, classifyCount_settleOpt, h1]
    · simp only [loopAux, hp0, hc0, if_true, Bool.false_eq_true, if_false]
      simp [screenshotCount, screenshotCount_append, screenshotCount_settleOpt, h2]
    · simp only [loopAux, hp0, hc0, if_true, Bool.false_eq_true, if_false]
      rw [h3]
      congr 2
      omega

/-- If persistence succeeds and the classifier first returns `'none'` on
attempt `att + k` inside the window, the loop performs exactly `k + 1`
classifier calls and screenshots, all on attempts `≤ att + k`, and exits
via the short-circuit with the `attempts` counter still at `att + k`. -/
theorem loopAux_first_none (env : LoopEnv) :
    ∀ remaining att found k,
      k < remaining →
      (∀ j, j ≤ k → env.persistOk (att + j) = true) →
      isNoneAction (env.classify (att + k)) = true →
      (∀ j, j < k → isNoneAction (env.classify (att + j)) = false) →
      classifyCount (loopAux env remaining att found).1 = k + 1 ∧
      screenshotCount (loopAux env remaining att found).1 = k + 1 ∧
      (∀ j, LoopEvent.classify j ∈ (loopAux env remaining att found).1 →
        j ≤ att + k) ∧
      ∃ b, (loopAux env remaining att found).2 = Except.ok ⟨b, att + k⟩ := by
  intro remaining
  induction remaining with
  | zero => intro att found k hk; omega
  | succ n ih =>
    intro att found k hk hp hnone hbefore
    have hp0 : env.persistOk att = true := by
      have := hp 0 (Nat.zero_le k); simpa using this
    cases k with
    | zero =>
      have hc0 : isNoneAction (env.classify att) = true := by simpa using hnone
      refine ⟨?_, ?_, ?_, found, ?_⟩ <;>
        simp [loopAux, hp0, hc0, classifyCount, screenshotCount]
    | succ m =>
      have hc0 : isNoneAction (env.classify att) = false := by
        have := hbefore 0 (Nat.succ_pos m); simpa using this
      have hm : m < n := by omega
      have hpS : ∀ j, j ≤ m → env.persistOk (att + 1 + j) = true := by
        intro j hj
        have := hp (j + 1) (by omega)
        simpa [Nat.add_assoc, Nat.add_comm 1 j] using this
      have hnoneS : isNoneAction (env.classify (att + 1 + m)) = true := by
        have heq : att + (m + 1) = att + 1 + m := by omega
        rwa [heq] at hnone
      have hbeforeS : ∀ j, j < m →
          isNoneAction (env.classify (att + 1 + j)) = false := by
        intro j hj
        have := hbefore (j + 1) (by omega)
        simpa [Nat.add_assoc, Nat.add_comm 1 j] using this
      obtain ⟨h1, h2, h3, b, h4⟩ :=
        ih (att + 1) (found || env.execOk att) m hm hpS hnoneS hbeforeS
      refine ⟨?_, ?_, ?_, b, ?_⟩
      · simp only [loopAux, hp0, hc0, if_true, Bool.false_eq_true, if_false]
        simp [classifyCount, classifyCount_append, classifyCount_settleOpt, h1]
      · simp only [loopAux, hp0, hc0, if_true, Bool.false_eq_true, if_false]
        simp [screenshotCount, screenshotCount_append, screenshotCount_settleOpt, h2]
      · simp only [loopAux, hp0, hc0, if_true, Bool.false_eq_true, if_false]
        intro j hj
        simp only [List.mem_cons, List.mem_append] at hj
        rcases hj with hj | hj | hj | hj | hj
        · exact absurd hj (by simp)
        · have hje : j = att := by
            injection hj
          omega
        · exact absurd hj (by simp)
        · exact absurd hj (classify_not_mem_settleOpt _ j)
        · have := h3 j hj
          omega
      · simp only [loopAux, hp0, hc0, if_true, Bool.false_eq_true, if_false]
        rw [h4]
        congr 2
        omega

/-- C1: for every attempt bound and every sequence of classifier
responses (persistence succeeding, cf. C3), the loop terminates exactly
as specified: if the classifier first returns `'none'` on attempt `k`
(0-based) with `k < maxAttempts`, the loop stops there — `k + 1`
classifier calls, none on any later attempt, short-circuit return; if it
never returns `'none'`, exactly `maxAttempts` attempts are performed, no
more, no fewer. -/
theorem c1_loop_terminates (env : LoopEnv) (maxAttempts k : Nat)
    (hp : ∀ i, i < maxAttempts → env.persistOk i = true) :
    (k < maxAttempts → isNoneAction (env.classify k) = true →
      (∀ j, j < k → isNoneAction (env.classify j) = false) →
      classifyCount (handlePageInteractions env maxAttempts).1 = k + 1 ∧
      (∀ j, LoopEvent.classify j ∈ (handlePageInteractions env maxAttempts).1 →
        j ≤ k) ∧
      ∃ b, (handlePageInteractions env maxAttempts).2 = Except.ok ⟨b, k⟩) ∧
    ((∀ j, j < maxAttempts → isNoneAction (env.classify j) = false) →
      classifyCount (handlePageInteractions env maxAttempts).1 = maxAttempts ∧
      screenshotCount (handlePageInteractions env maxAttempts).1 = maxAttempts ∧
      ∃ b, (handlePageInteractions env maxAttempts).2 =
        Except.ok ⟨b, maxAttempts⟩) := by
  constructor
  · intro hk hnone hbefore
    have hp2 : ∀ j, j ≤ k → env.persistOk (0 + j) = true := by
      intro j hj; simpa using hp j (by omega)
    have hnone2 : isNoneAction (env.classify (0 + k)) = true := by simpa using hnone
    have hbefore2 : ∀ j, j < k → isNoneAction (env.classify (0 + j)) = false := by
      intro j hj; simpa using hbefore j hj
    obtain ⟨h1, _, h3, b, h4⟩ :=
      loopAux_first_none env maxAttempts 0 false k hk hp2 hnone2 hbefore2
    refine ⟨h1, ?_, b, ?_⟩
    · intro j hj
      have := h3 j hj
      omega
    · simpa [handlePageInteractions] using h4
  · intro hnever
    have hp2 : ∀ j, j < maxAttempts → env.persistOk (0 + j) = true := by
      intro j hj; simpa using hp j hj
    have hc2 : ∀ j, j < maxAttempts →
        isNoneAction (env.classify (0 + j)) = false := by
      intro j hj; simpa using hnever j hj
    obtain ⟨h1, h2, b, h3⟩ := loopAux_no_none env maxAttempts 0 false hp2 hc2
    exact ⟨h1, h2, b, by simpa [handlePageInteractions] using h3⟩

/-- An environment in which the classifier recommends a scroll on attempt
0 and returns `'none'` on attempt 1. -/
def envNoneAtOne : LoopEnv :=
  ⟨fun i => if i = 1 then noneAction "No interaction needed"
    else ⟨ActionKind.scroll, Option.none, Option.none, Option.none,
      Option.some 500, Option.none, Option.some "scroll down"⟩,
    fun _ => true, fun _ => true⟩

theorem c1_loop_terminates_witness :
    classifyCount (handlePageInteractions envNoneAtOne 3).1 = 2 ∧
    (∃ b, (handlePageInteractions envNoneAtOne 3).2 = Except.ok ⟨b, 1⟩) := by
  have h := (c1_loop_terminates envNoneAtOne 3 1 (by decide)).1
    (by decide) (by decide) (by decide)
  exact ⟨h.1, h.2.2⟩

/-! ## C5: the settle delay happens exactly on executor success -/

/-- Checks the "Settling" discipline on a trace: every successful Acting
step is immediately followed by the fixed 2000 ms settle wait, a failed
Acting step is never followed by a settle wait, and no settle wait occurs
anywhere else. -/
def settleDiscipline : List LoopEvent → Bool
  | [] => true
  | LoopEvent.execute _ true :: rest =>
      match rest with
      | LoopEvent.settle 2000 :: rest2 => settleDiscipline rest2
      | _ => false
  | LoopEvent.execute _ false :: rest =>
      match rest with
      | LoopEvent.settle _ :: _ => false
      | _ => settleDiscipline rest
  | LoopEvent.settle _ :: _ => false
  | _ :: rest => settleDiscipline rest

/-- Every (non-empty) loop trace starts with the screenshot of its first
attempt. -/
theorem loopAux_trace_shape (env : LoopEnv) (remaining att : Nat) (found : Bool) :
    (loopAux env remaining att found).1 = [] ∨
    ∃ t, (loopAux env remaining att found).1 = LoopEvent.screenshot att :: t := by
  cases remaining with
  | zero => exact Or.inl rfl
  | succ n =>
    right
    cases hpp : env.persistOk att with
    | false => exact ⟨[LoopEvent.persistFail att], by simp [loopAux, hpp]⟩
    | true =>
      cases hcc : isNoneAction (env.classify att) with
      | true => exact ⟨[LoopEvent.classify att], by simp [loopAux, hpp, hcc]⟩
      | false =>
        refine ⟨LoopEvent.classify att :: LoopEvent.execute att (env.execOk att) ::
          ((if env.execOk att then [LoopEvent.settle 2000] else []) ++
            (loopAux env n (att+1) (found || env.execOk att)).1), ?_⟩
        simp [loopAux, hpp, hcc]

theorem loopAux_settleDiscipline (env : LoopEnv) :
    ∀ remaining att found,
      settleDiscipline (loopAux env remaining att found).1 = true := by
  intro remaining
  induction remaining with
  | zero => intro att found; rfl
  | succ n ih =>
    intro att found
    cases hpp : env.persistOk att with
    | false => simp [loopAux, hpp, settleDiscipline]
    | true =>
      cases hcc : isNoneAction (env.classify att) with
      | true => simp [loopAux, hpp, hcc, settleDiscipline]
      | false =>
        cases hee : env.execOk att with
        | true =>
          have ihe := ih (att + 1) (found || true)
          simp only [loopAux, hpp, hcc, hee, if_true, Bool.false_eq_true,
            if_false, List.singleton_append]
          simpa [settleDiscipline] using ihe
        | false =>
          have ihe := ih (att + 1) (found || false)
          rcases loopAux_trace_shape env n (att + 1) (found || false) with h | ⟨t, h⟩
          · simp only [loopAux, hpp, hcc, hee, Bool.false_eq_true, if_false,
              List.nil_append]
            rw [h]
            rfl
          · rw [h] at ihe
            simp only [loopAux, hpp, hcc, hee, Bool.false_eq_true, if_false,
              List.nil_append]
            rw [h]
            simpa [settleDiscipline] using ihe

/-- C5: on every trace the loop can produce, the fixed 2000 ms settle
wait occurs immediately after an Acting step if and only if the executor
reported success; after a failed action the loop proceeds directly to the
next attempt (or exit) with no settle delay. -/
theorem c5_settle_iff_success (env : LoopEnv) (maxAttempts : Nat) :
    settleDiscipline (handlePageInteractions env maxAttempts).1 = true :=
  loopAux_settleDiscipline env maxAttempts 0 false

/-! ## The action executor (src/ai/page-interactions.ts, `executeAction`)

The page is an oracle telling whether the bounded `waitForSelector`, the
selector click and the selector type calls succeed.  The browser calls
issued by the executor are recorded as a list of operations. -/

/-- A browser-level operation issued by the executor. -/
inductive PageOp where
  | clickByText (text : String)
  | waitForSelector (selector : String) (timeoutMs : Nat)
  | clickSelector (selector : String)
  | typeText (selector : String) (text : String)
  | scrollBy (amount : Int)
  | sleep (ms : Int)
deriving DecidableEq, Repr

structure ExecPage where
  waitForSelectorOk : String → Bool
  clickOk : String → Bool
  typeOk : String → Bool

/-- JavaScript truthiness of an optional string field: `undefined` and
the empty string are falsy. -/
def strTruthy : Option String → Bool
  | Option.some s => decide (s ≠ "")
  | Option.none => false

/-- JavaScript truthiness of an optional numeric field: `undefined` and
`0` are falsy. -/
def intTruthy : Option Int → Bool
  | Option.some n => decide (n ≠ 0)
  | Option.none => false

/-- `executeAction(page, action)`: returns the boolean the function
returns together with the browser operations it issued, following the
source `switch` branch by branch (including the JS truthiness tests on
the optional fields). -/
def executeAction (page : ExecPage) (a : AIAction) : Bool × List PageOp :=
  match a.action with
  | ActionKind.click =>
    if strTruthy a.targetText then
      (true, [PageOp.clickByText (a.targetText.getD "")])
    else if strTruthy a.targetSelector then
      let sel := a.targetSelector.getD ""
      if page.waitForSelectorOk sel then
        (page.clickOk sel, [PageOp.waitForSelector sel 5000, PageOp.clickSelector sel])
      else
        (false, [PageOp.waitForSelector sel 5000])
    else
      (false, [])
  | ActionKind.type =>
    if strTruthy a.targetSelector && strTruthy a.inputText then
      let sel := a.targetSelector.getD ""
      if page.waitForSelectorOk sel then
        (page.typeOk sel,
          [PageOp.waitForSelector sel 5000, PageOp.typeText sel (a.inputText.getD "")])
      else
        (false, [PageOp.waitForSelector sel 5000])
    else
      (false, [])
  | ActionKind.scroll =>
    if intTruthy a.scrollAmount then
      (true, [PageOp.scrollBy (a.scrollAmount.getD 0)])
    else
      (false, [])
  | ActionKind.wait =>
    if intTruthy a.waitTime then
      (true, [PageOp.sleep (a.waitTime.getD 0)])
    else
      (false, [])
  | ActionKind.none =>
    (false, [])

/-- A Scroll action whose `scrollAmount` field is present but equal to 0. -/
def scrollZeroAction : AIAction :=
  ⟨ActionKind.scroll, Option.none, Option.none, Option.none,
    Option.some 0, Option.none, Option.some "scroll a bit"⟩

/-- A page on which every selector operation succeeds. -/
def allOkPage : ExecPage :=
  ⟨fun _ => true, fun _ => true, fun _ => true⟩

/-- C4 counterexample: the claim says the executor reports false only
when the amount field is absent, but `if (action.scrollAmount)` uses JS
truthiness, so a present amount of `0` also reports false (and issues no
scroll). -/
theorem c4_scroll_counterexample :
    scrollZeroAction.action = ActionKind.scroll ∧
    scrollZeroAction.scrollAmount = Option.some 0 ∧
    scrollZeroAction.scrollAmount ≠ Option.none ∧
    executeAction allOkPage scrollZeroAction = (false, []) := by
  refine ⟨rfl, rfl, by decide, rfl⟩

/-- C4 amended: for every Scroll action whose amount field is present and
nonzero, the executor issues a page-level scroll by that many pixels and
reports true; it reports false (and issues nothing) exactly when the
amount is absent or zero (falsy). -/
theorem c4_scroll_amended (page : ExecPage) (a : AIAction)
    (hk : a.action = ActionKind.scroll) :
    (∀ n : Int, a.scrollAmount = Option.some n → n ≠ 0 →
      executeAction page a = (true, [PageOp.scrollBy n])) ∧
    (a.scrollAmount = Option.none ∨ a.scrollAmount = Option.some 0 →
      executeAction page a = (false, [])) := by
  constructor
  · intro n hsome hnz
    simp [executeAction, hk, intTruthy, hsome, hnz]
  · intro habs
    rcases habs with h | h <;> simp [executeAction, hk, intTruthy, h]

/-- A Scroll action by 120 pixels. -/
def scroll120Action : AIAction :=
  ⟨ActionKind.scroll, Option.none, Option.none, Option.none,
    Option.some 120, Option.none, Option.some "scroll past the banner"⟩

theorem c4_scroll_amended_witness :
    executeAction allOkPage scroll120Action = (true, [PageOp.scrollBy 120]) :=
  (c4_scroll_amended allOkPage scroll120Action rfl).1 120 rfl (by decide)

/-! ## Cross-frame text click (src/ai/page-interactions.ts,
`clickElementsByText`)

A frame is modelled by its name, whether its element query
(`frame.$$eval` / `frame.$$`) throws, and the clickable elements
(`a, button`) it contains; each element carries its `textContent`
(possibly null) and whether clicking it throws.  Both throw points are
modelled explicitly and caught exactly where the source catches them. -/

structure FrameElement where
  textContent : Option String
  clickFails : Bool
deriving DecidableEq, Repr

structure PageFrame where
  name : String
  queryThrows : Bool
  elements : List FrameElement
deriving DecidableEq, Repr

/-- The per-frame record built by the source (`{frame, found, count}`,
the `error` field dropped). -/
structure FrameResult where
  frame : String
  found : Bool
  count : Nat
deriving DecidableEq, Repr

/-- `needle` is a prefix of `hay` (character-wise). -/
def isPrefixList : List Char → List Char → Bool
  | [], _ => true
  | _ :: _, [] => false
  | a :: as, b :: bs => a == b && isPrefixList as bs

/-- `String.prototype.includes`: `needle` occurs as a contiguous
substring of `hay` (the empty needle always matches). -/
def containsSub (needle : List Char) : List Char → Bool
  | [] => needle.isEmpty
  | c :: rest => isPrefixList needle (c :: rest) || containsSub needle rest

/-- `el.textContent?.toLowerCase().includes(searchText)`: a null
`textContent` never matches (the optional chain yields `undefined`,
which is falsy). -/
def matchesText (searchText : List Char) (el : FrameElement) : Bool :=
  match el.textContent with
  | Option.some s => containsSub searchText (s.toList.map Char.toLower)
  | Option.none => false

/-- The `forEach` in `$$eval` collecting the indexes of all matching
elements, starting from index `i`. -/
def matchIdxs (searchText : List Char) : Nat → List FrameElement → List Nat
  | _, [] => []
  | i, el :: rest =>
    if matchesText searchText el then i :: matchIdxs searchText (i+1) rest
    else matchIdxs searchText (i+1) rest

/-- `allElements[idx].click()` guarded by `if (allElements[idx])`: a
missing index is skipped, a throwing click is an error. -/
def clickAtIndex (els : List FrameElement) (i : Nat) : Except String Unit :=
  match els.get? i with
  | Option.some el =>
    if el.clickFails then Except.error "click error" else Except.ok ()
  | Option.none => Except.ok ()

/-- The click phase: every click error is caught in its own try/catch
(logged and swallowed), so sibling clicks are unaffected. -/
def clickAllCaught (els : List FrameElement) (idxs : List Nat) : List Unit :=
  idxs.map fun i =>
    match clickAtIndex els i with
    | Except.ok u => u
    | Except.error _ => ()

/-- The body of the per-frame `try` block: the queries may throw; with no
match the frame reports `found: false, count: 0`; otherwise all matches
are clicked (failures swallowed individually) and the frame reports the
match count. -/
def frameTryBody (searchText : List Char) (f : PageFrame) : Except String FrameResult :=
  if f.queryThrows then Except.error ("Error in frame " ++ f.name)
  else
    let idxs := matchIdxs searchText 0 f.elements
    if idxs.length = 0 then Except.ok ⟨f.name, false, 0⟩
    else
      let _ := clickAllCaught f.elements idxs
      Except.ok ⟨f.name, true, idxs.length⟩

/-- The per-frame `catch`: a throwing frame degrades to
`found: false, count: 0` instead of failing the whole call. -/
def processFrame (searchText : List Char) (f : PageFrame) : FrameResult :=
  match frameTryBody searchText f with
  | Except.ok r => r
  | Except.error _ => ⟨f.name, false, 0⟩

/-- `clickElementsByText(page, targetText)`: lower-case the target text
once, process every frame (concurrently in the source, order-preserving
here), never throwing. -/
def clickElementsByText (targetText : String) (frames : List PageFrame) :
    List FrameResult :=
  let searchText := targetText.toList.map Char.toLower
  frames.map (processFrame searchText)

/-- The aggregation at the end of the source: sum of `count` over the
frames with `found = true`. -/
def totalClicks (results : List FrameResult) : Nat :=
  (results.filter fun r => r.found).foldl (fun sum r => sum + r.count) 0

theorem foldl_add_count (rs : List FrameResult) (acc : Nat) :
    rs.foldl (fun sum r => sum + r.count) acc = acc + (rs.map (·.count)).sum := by
  induction rs generalizing acc with
  | nil => simp
  | cons r rest ih => simp [List.foldl_cons, ih]; omega

theorem totalClicks_cons (r : FrameResult) (rs : List FrameResult) :
    totalClicks (r :: rs) = (if r.found then r.count else 0) + totalClicks rs := by
  cases hf : r.found <;>
    simp [totalClicks, List.filter_cons, hf, foldl_add_count]

theorem matchIdxs_length (searchText : List Char) :
    ∀ (i : Nat) (els : List FrameElement),
      (matchIdxs searchText i els).length =
        (els.filter (matchesText searchText)).length := by
  intro i els
  induction els generalizing i with
  | nil => rfl
  | cons el rest ih =>
    cases hm : matchesText searchText el <;>
      simp [matchIdxs, List.filter_cons, hm, ih]

/-- The contribution of one frame to the aggregate: 0 if its query
throws, else its number of matching elements — independent of any
per-element click failure. -/
theorem processFrame_contribution (searchText : List Char) (f : PageFrame) :
    (if (processFrame searchText f).found then (processFrame searchText f).count else 0) =
      if f.queryThrows then 0
      else (f.elements.filter (matchesText searchText)).length := by
  have hlen := matchIdxs_length searchText 0 f.elements
  by_cases hq : f.queryThrows
  · simp [processFrame, frameTryBody, hq]
  · by_cases hz : (matchIdxs searchText 0 f.elements).length = 0
    · simp [processFrame, frameTryBody, hq, hz]
      omega
    · simp [processFrame, frameTryBody, hq, hz]
      omega

/-- C6: the cross-frame text click never fails outright: it returns one
result per frame, and the aggregate click count is the sum, over exactly
the frames whose query did not throw, of their own match counts —
independent of other frames' failures and of any element's click
failure; with zero matches everywhere the call still returns normally
with aggregate 0. -/
theorem c6_crossframe_isolation (targetText : String) (frames : List PageFrame) :
    (clickElementsByText targetText frames).length = frames.length ∧
    totalClicks (clickElementsByText targetText frames) =
      (frames.map fun f =>
        if f.queryThrows then 0
        else (f.elements.filter
          (matchesText (targetText.toList.map Char.toLower))).length).sum := by
  constructor
  · simp [clickElementsByText]
  · induction frames with
    | nil => rfl
    | cons f rest ih =>
      simp only [clickElementsByText, List.map_cons] at ih ⊢
      rw [totalClicks_cons, List.sum_cons, ih, processFrame_contribution]

/-! ## The vision classifier wrapper (src/ai/vision-analyzer.ts,
`analyzePageWithAI`)

The whole body sits in one try/catch.  The outcome of the request is one
of: the API call rejects (network/request error); it resolves but
`response.choices[0]?.message.content` is null/undefined/empty, in which
case the `||` default substitutes the literal
`'{"action": "none", "reason": "Failed to get response"}'`, whose
`JSON.parse` yields exactly that `none` action; or a content string is
present and `JSON.parse` on it either throws (caught by the same catch)
or produces a value that is cast to `AIAction` unchecked. -/

inductive AIResponseOutcome where
  | requestThrows
  | missingContent
  | contentParse (result : Except String AIAction)

/-- `analyzePageWithAI(base64Image)`, as a function of the request
outcome.  Every failure path lands in a `none` action with a reason; no
path re-throws to the caller. -/
def analyzePageWithAI : AIResponseOutcome → AIAction
  | AIResponseOutcome.requestThrows => noneAction "Error parsing AI response"
  | AIResponseOutcome.missingContent => noneAction "Failed to get response"
  | AIResponseOutcome.contentParse (Except.error _) =>
      noneAction "Error parsing AI response"
  | AIResponseOutcome.contentParse (Except.ok a) => a

/-- C7: the classifier wrapper is total (it returns an `AIAction` for
every outcome, never raising), and on every internal failure — request
error, missing response content, or unparseable output — the returned
action is the `none` variant carrying a non-empty reason string. -/
theorem c7_classifier_never_raises (o : AIResponseOutcome)
    (hfail : o = AIResponseOutcome.requestThrows ∨
      o = AIResponseOutcome.missingContent ∨
      ∃ e, o = AIResponseOutcome.contentParse (Except.error e)) :
    (analyzePageWithAI o).action = ActionKind.none ∧
    ∃ s, (analyzePageWithAI o).reason = Option.some s ∧ s ≠ "" := by
  rcases hfail with h | h | ⟨e, h⟩ <;> subst h
  · exact ⟨rfl, "Error parsing AI response", rfl, by decide⟩
  · exact ⟨rfl, "Failed to get response", rfl, by decide⟩
  · exact ⟨rfl, "Error parsing AI response", rfl, by decide⟩

theorem c7_classifier_never_raises_witness :
    (analyzePageWithAI AIResponseOutcome.requestThrows).action = ActionKind.none ∧
    ∃ s, (analyzePageWithAI AIResponseOutcome.requestThrows).reason =
      Option.some s ∧ s ≠ "" :=
  c7_classifier_never_raises AIResponseOutcome.requestThrows (Or.inl rfl)

/-! ## The Turndown code-block rule (src/utils/markdown-formatters.ts,
`configureTurndownService`, rule `codeBlocks`)

The rule receives the rendered `content` of the `pre` node and the node
itself; from the node it reads the `className` of a nested `code`
element (if any) and the `data-language` attribute.  The content is
cleaned by `content.replace(/^\n+|\n+$/g, '').replace(/\n\n+/g, '\n')`
and wrapped in triple-backtick fences tagged with the resolved
language. -/

def isNewline (c : Char) : Bool := c == '\n'

/-- The `^\n+` half of the first regex: drop the leading newline run. -/
def stripLeadNl (cs : List Char) : List Char := cs.dropWhile isNewline

/-- The `\n+$` half of the first regex: drop the trailing newline run. -/
def stripTrailNl : List Char → List Char
  | [] => []
  | c :: rest =>
    match stripTrailNl rest with
    | [] => if isNewline c then [] else [c]
    | r => c :: r

/-- `content.replace(/^\n+|\n+$/g, '')`: the two alternatives of the one
regex touch disjoint parts of the string, so applying them in sequence is
the same global replacement. -/
def stripEdgeNl (cs : List Char) : List Char := stripTrailNl (stripLeadNl cs)

/-- `content.replace(/\n\n+/g, '\n')`: a newline that immediately
follows another newline is dropped, so every maximal run of 2 or more
newlines collapses to a single newline (a lone newline is untouched).
The flag records whether the previous kept character was a newline. -/
def collapseNlAux : Bool → List Char → List Char
  | _, [] => []
  | inRun, c :: rest =>
    if isNewline c then
      if inRun then collapseNlAux true rest
      else '\n' :: collapseNlAux true rest
    else c :: collapseNlAux false rest

def collapseNlRuns (cs : List Char) : List Char := collapseNlAux false cs

/-- The full `cleanContent` pipeline of the source. -/
def cleanContent (cs : List Char) : List Char := collapseNlRuns (stripEdgeNl cs)

/-- JS `\w`: ASCII letters, digits and underscore. -/
def isWordChar (c : Char) : Bool := c.isAlphanum || c == '_'

/-- Leftmost match of `/language-(\w+)/` against a class string: scan for
the literal `language-` (9 characters) followed by at least one word
character, returning the captured word-character run. -/
def findLanguageCapture : List Char → Option (List Char)
  | [] => Option.none
  | c :: rest =>
    if isPrefixList ("language-".toList) (c :: rest) then
      let w := ((c :: rest).drop 9).takeWhile isWordChar
      if w.isEmpty then findLanguageCapture rest else Option.some w
    else findLanguageCapture rest

/-- `code?.className?.match(/language-(\w+)/)?.[1]` as an optional
string. -/
def matchLanguageClass (className : String) : Option String :=
  (findLanguageCapture className.toList).map fun w => String.mk w

/-- What the rule reads from the `pre` node: the `className` of its
nested `code` element (`none` when there is no `code` child) and its
`data-language` attribute (`none` when absent). -/
structure PreElement where
  codeClassName : Option String
  dataLanguage : Option String
deriving DecidableEq, Repr

/-- The `||` chain resolving the language: class capture, else
`data-language` (an empty attribute value is falsy in JS and falls
through), else the literal `yaml`. -/
def resolveLanguage (p : PreElement) : String :=
  match p.codeClassName.bind matchLanguageClass with
  | Option.some lang => lang
  | Option.none =>
    match p.dataLanguage with
    | Option.some d => if d = "" then "yaml" else d
    | Option.none => "yaml"

/-- The replacement returned by the `codeBlocks` rule. -/
def codeBlockReplacement (content : String) (p : PreElement) : String :=
  "\n```" ++ resolveLanguage p ++ "\n" ++
    String.mk (cleanContent content.toList) ++ "\n```\n"

/-! Line-level view used to state what the cleaning does, and to state
the claim's own description of the cleaning. -/

def consHead (c : Char) : List (List Char) → List (List Char)
  | [] => [[c]]
  | l :: ls => (c :: l) :: ls

/-- Split a character list into its newline-separated lines (never
empty; `n` newlines yield `n + 1` lines). -/
def linesOf : List Char → List (List Char)
  | [] => [[]]
  | c :: rest =>
    if isNewline c then [] :: linesOf rest else consHead c (linesOf rest)

/-- Join lines with single newlines. -/
def joinLines : List (List Char) → List Char
  | [] => []
  | [l] => l
  | l :: ls => l ++ '\n' :: joinLines ls

def nonEmptyLines (cs : List Char) : List (List Char) :=
  (linesOf cs).filter fun l => !l.isEmpty

/-- The independent line-based description of the source cleaning: keep
exactly the non-empty lines, joined by single newlines (so interior
blank lines are removed entirely). -/
def specClean (cs : List Char) : List Char := joinLines (nonEmptyLines cs)

/-- The claim's description of the cleaning, taken literally: trim
leading/trailing blank lines, and collapse every run of 2 or more
consecutive blank lines to one blank line (a single interior blank line
is left alone). -/
def dropEdgeEmptyLines (ls : List (List Char)) : List (List Char) :=
  ((ls.dropWhile fun l => l.isEmpty).reverse.dropWhile fun l => l.isEmpty).reverse

def collapseEmptyAux : Bool → List (List Char) → List (List Char)
  | _, [] => []
  | inRun, l :: rest =>
    if l.isEmpty then
      if inRun then collapseEmptyAux true rest
      else [] :: collapseEmptyAux true rest
    else l :: collapseEmptyAux false rest

def claimCleanContent (cs : List Char) : List Char :=
  joinLines (collapseEmptyAux false (dropEdgeEmptyLines (linesOf cs)))

/-- A `pre` holding a `code` child of class `language-python`. -/
def prePython : PreElement := ⟨Option.some "language-python", Option.none⟩

/-- C8 counterexample: on the content `"x\n\ny"` (one interior blank
line, nothing to trim, no run of 2+ blank lines) the claim's cleaning
leaves the content unchanged, but the source's
`replace(/\n\n+/g, '\n')` deletes the blank line, so the rendered block
differs from the one the claim mandates. -/
theorem c8_codeblock_counterexample :
    claimCleanContent ("x\n\ny".toList) = "x\n\ny".toList ∧
    cleanContent ("x\n\ny".toList) = "x\ny".toList ∧
    codeBlockReplacement "x\n\ny" prePython ≠
      "\n```" ++ resolveLanguage prePython ++ "\n" ++
        String.mk (claimCleanContent ("x\n\ny".toList)) ++ "\n```\n" := by
  refine ⟨by decide, by decide, by decide⟩

/-! ## C8: the cleaning pipeline equals "keep the non-empty lines" -/

theorem collapseNlAux_true (xs : List Char) :
    collapseNlAux true xs = collapseNlAux false (xs.dropWhile isNewline) := by
  induction xs with
  | nil => rfl
  | cons c rest ih =>
    cases hnc : isNewline c <;>
      simp [collapseNlAux, List.dropWhile, hnc, ih]

theorem stripTrailNl_eq_nil (cs : List Char) :
    stripTrailNl cs = [] ↔ ∀ x ∈ cs, isNewline x = true := by
  induction cs with
  | nil => simp [stripTrailNl]
  | cons c rest ih =>
    cases hst : stripTrailNl rest with
    | nil =>
      have hall : ∀ x ∈ rest, isNewline x = true := ih.mp hst
      cases hnc : isNewline c
      · constructor
        · intro h
          simp [stripTrailNl, hst, hnc] at h
        · intro h
          have := h c (List.mem_cons_self c rest)
          rw [this] at hnc
          cases hnc
      · constructor
        · intro _ x hx
          rcases List.mem_cons.mp hx with h | h
          · rw [h]; exact hnc
          · exact hall x h
        · intro _
          simp [stripTrailNl, hst, hnc]
    | cons r rs =>
      constructor
      · intro h
        simp [stripTrailNl, hst] at h
      · intro h
        have : ∀ x ∈ rest, isNewline x = true := by
          intro x hx; exact h x (List.mem_cons_of_mem c hx)
        rw [ih.mpr this] at hst
        cases hst

theorem dropWhile_stripTrailNl (xs : List Char) :
    List.dropWhile isNewline (stripTrailNl xs) =
      stripTrailNl (List.dropWhile isNewline xs) := by
  induction xs with
  | nil => rfl
  | cons c rest ih =>
    cases hnc : isNewline c with
    | true =>
      have hR : List.dropWhile isNewline (c :: rest) =
          List.dropWhile isNewline rest := by
        rw [List.dropWhile_cons, if_pos hnc]
      cases hst : stripTrailNl rest with
      | nil =>
        have h1 : stripTrailNl (c :: rest) = [] := by
          simp [stripTrailNl, hst, hnc]
        have h2 : stripTrailNl (List.dropWhile isNewline rest) = [] := by
          rw [← ih, hst]; rfl
        rw [h1, hR, h2]; rfl
      | cons r rs =>
        have hstc : stripTrailNl (c :: rest) = c :: r :: rs := by
          simp [stripTrailNl, hst]
        have hrw : List.dropWhile isNewline (r :: rs) =
            stripTrailNl (List.dropWhile isNewline rest) := by
          rw [← ih, hst]
        rw [hstc, hR, List.dropWhile_cons, if_pos hnc]
        exact hrw
    | false =>
      have hne : ¬ isNewline c = true := by simp [hnc]
      have hdw : List.dropWhile isNewline (c :: rest) = c :: rest := by
        rw [List.dropWhile_cons, if_neg hne]
      rw [hdw]
      cases hst : stripTrailNl rest with
      | nil =>
        have hstc : stripTrailNl (c :: rest) = [c] := by
          simp [stripTrailNl, hst, hnc]
        rw [hstc, List.dropWhile_cons, if_neg hne]
      | cons r rs =>
        have hstc : stripTrailNl (c :: rest) = c :: r :: rs := by
          simp [stripTrailNl, hst]
        rw [hstc, List.dropWhile_cons, if_neg hne]

theorem consHead_ne_nil (c : Char) (ls : List (List Char)) :
    consHead c ls ≠ [] := by
  cases ls <;> simp [consHead]

theorem linesOf_ne_nil (cs : List Char) : linesOf cs ≠ [] := by
  cases cs with
  | nil => simp [linesOf]
  | cons c rest =>
    cases hnc : isNewline c <;> simp [linesOf, hnc, consHead_ne_nil]

theorem linesOf_all_nl (cs : List Char) (h : ∀ x ∈ cs, isNewline x = true) :
    ∀ m ∈ linesOf cs, m = [] := by
  induction cs with
  | nil =>
    intro m hm
    simp [linesOf] at hm
    exact hm
  | cons c rest ih =>
    have hnc : isNewline c = true := h c (List.mem_cons_self c rest)
    have hrest : ∀ x ∈ rest, isNewline x = true := by
      intro x hx; exact h x (List.mem_cons_of_mem c hx)
    intro m hm
    simp [linesOf, hnc] at hm
    rcases hm with hm | hm
    · exact hm
    · exact ih hrest m hm

theorem nonEmptyLines_eq_nil (cs : List Char) :
    nonEmptyLines cs = [] ↔ ∀ x ∈ cs, isNewline x = true := by
  induction cs with
  | nil => simp [nonEmptyLines, linesOf]
  | cons c rest ih =>
    cases hnc : isNewline c
    · constructor
      · intro h
        obtain ⟨l, ls, hls⟩ : ∃ l ls, linesOf rest = l :: ls := by
          cases hlr : linesOf rest with
          | nil => exact absurd hlr (linesOf_ne_nil rest)
          | cons l ls => exact ⟨l, ls, rfl⟩
        simp [nonEmptyLines, linesOf, hnc, hls, consHead, List.filter] at h
      · intro h
        have := h c (List.mem_cons_self c rest)
        rw [this] at hnc
        cases hnc
    · have hfil : nonEmptyLines (c :: rest) = nonEmptyLines rest := by
        simp [nonEmptyLines, linesOf, hnc, List.filter]
      rw [hfil, ih]
      constructor
      · intro h x hx
        rcases List.mem_cons.mp hx with hh | hh
        · rw [hh]; exact hnc
        · exact h x hh
      · intro h x hx
        exact h x (List.mem_cons_of_mem c hx)

theorem joinLines_cons_cons (c : Char) (l : List Char) (ls : List (List Char)) :
    joinLines ((c :: l) :: ls) = c :: joinLines (l :: ls) := by
  cases ls <;> rfl

theorem joinLines_cons_ne_nil (l : List Char) (ls : List (List Char))
    (h : ls ≠ []) : joinLines (l :: ls) = l ++ '\n' :: joinLines ls := by
  cases ls with
  | nil => exact absurd rfl h
  | cons m ms => rfl

theorem cleanContent_eq_specClean_aux :
    ∀ (n : Nat) (cs : List Char), cs.length ≤ n →
      cleanContent cs = specClean cs := by
  intro n
  induction n with
  | zero =>
    intro cs hlen
    have : cs = [] := List.eq_nil_of_length_eq_zero (Nat.le_zero.mp hlen)
    subst this
    rfl
  | succ n ih =>
    intro cs hlen
    cases cs with
    | nil => rfl
    | cons c rest =>
      have hrest : rest.length ≤ n := by
        simp only [List.length_cons] at hlen
        omega
      cases hnc : isNewline c with
      | true =>
        have h1 : cleanContent (c :: rest) = cleanContent rest := by
          simp [cleanContent, stripEdgeNl, stripLeadNl, List.dropWhile_cons, hnc]
        have h2 : specClean (c :: rest) = specClean rest := by
          simp [specClean, nonEmptyLines, linesOf, hnc, List.filter]
        rw [h1, h2]
        exact ih rest hrest
      | false =>
        have hne : ¬ isNewline c = true := by simp [hnc]
        have hdw : List.dropWhile isNewline (c :: rest) = c :: rest := by
          rw [List.dropWhile_cons, if_neg hne]
        cases hst : stripTrailNl rest with
        | nil =>
          -- rest is all newlines: both sides are [c]
          have hall : ∀ x ∈ rest, isNewline x = true :=
            (stripTrailNl_eq_nil rest).mp hst
          have hA : cleanContent (c :: rest) = [c] := by
            have hstc : stripTrailNl (c :: rest) = [c] := by
              simp [stripTrailNl, hst, hnc]
            simp [cleanContent, stripEdgeNl, stripLeadNl, hdw, hstc,
              collapseNlRuns, collapseNlAux, hnc]
          obtain ⟨l, ls, hls⟩ : ∃ l ls, linesOf rest = l :: ls := by
            cases hlr : linesOf rest with
            | nil => exact absurd hlr (linesOf_ne_nil rest)
            | cons l ls => exact ⟨l, ls, rfl⟩
          have hml : ∀ m ∈ linesOf rest, m = [] := linesOf_all_nl rest hall
          have hl0 : l = [] := hml l (by rw [hls]; exact List.mem_cons_self _ _)
          have hls0 : ∀ m ∈ ls, m = [] := by
            intro m hm
            exact hml m (by rw [hls]; exact List.mem_cons_of_mem _ hm)
          have hlines : linesOf (c :: rest) = (c :: l) :: ls := by
            simp [linesOf, hnc, hls, consHead]
          have hfilter : ls.filter (fun m => !m.isEmpty) = [] := by
            rw [List.filter_eq_nil_iff]
            intro m hm
            simp [hls0 m hm]
          have hB : specClean (c :: rest) = [c] := by
            rw [specClean, nonEmptyLines, hlines, hl0]
            simp [List.filter, hfilter, joinLines]
          rw [hA, hB]
        | cons r rs =>
          have hstc : stripTrailNl (c :: rest) = c :: r :: rs := by
            simp [stripTrailNl, hst]
          have hLHS : cleanContent (c :: rest) =
              c :: collapseNlAux false (r :: rs) := by
            simp [cleanContent, stripEdgeNl, stripLeadNl, hdw, hstc,
              collapseNlRuns, collapseNlAux, hnc]
          cases rest with
          | nil => simp [stripTrailNl] at hst
          | cons d rest2 =>
            cases hnd : isNewline d with
            | true =>
              -- B2: c, then a newline, then rest2 (whose tail-strip is r :: rs less d)
              cases hst2 : stripTrailNl rest2 with
              | nil =>
                rw [stripTrailNl, hst2] at hst
                simp [hnd] at hst
              | cons r2 rs2 =>
                have hinj : d :: r2 :: rs2 = r :: rs := by
                  have := hst
                  rw [stripTrailNl, hst2] at this
                  exact this
                have hd : d = '\n' := by
                  have : (d == '\n') = true := hnd
                  exact beq_iff_eq.mp this
                have hrs : r :: rs = d :: r2 :: rs2 := hinj.symm
                have hrest2 : rest2.length ≤ n := by
                  simp only [List.length_cons] at hrest
                  omega
                -- collapse the leading newline of (r :: rs), then reduce to rest2
                have hcoll : collapseNlAux false (r :: rs) =
                    '\n' :: cleanContent rest2 := by
                  rw [hrs, hd]
                  have h1 : collapseNlAux false ('\n' :: r2 :: rs2) =
                      '\n' :: collapseNlAux true (r2 :: rs2) := by
                    simp [collapseNlAux, isNewline]
                  rw [h1, collapseNlAux_true]
                  have h2 : List.dropWhile isNewline (r2 :: rs2) =
                      stripTrailNl (List.dropWhile isNewline rest2) := by
                    rw [← hst2, dropWhile_stripTrailNl]
                  rw [h2]
                  rfl
                have hne2 : nonEmptyLines rest2 ≠ [] := by
                  intro hcontra
                  have hallnl := (nonEmptyLines_eq_nil rest2).mp hcontra
                  have := (stripTrailNl_eq_nil rest2).mpr hallnl
                  rw [hst2] at this
                  cases this
                have hcn : ¬ c = '\n' := by
                  intro hcontra
                  rw [hcontra] at hnc
                  simp [isNewline] at hnc
                have hlines : linesOf (c :: d :: rest2) =
                    [c] :: linesOf rest2 := by
                  rw [hd]
                  simp [linesOf, isNewline, hnc, consHead, hcn]
                have hRHS : specClean (c :: d :: rest2) =
                    c :: '\n' :: specClean rest2 := by
                  rw [specClean, nonEmptyLines, hlines]
                  have hfc : ([c] :: linesOf rest2).filter (fun l => !l.isEmpty) =
                      [c] :: nonEmptyLines rest2 := by
                    simp [List.filter, nonEmptyLines]
                  rw [hfc, joinLines_cons_ne_nil [c] (nonEmptyLines rest2) hne2]
                  rfl
                rw [hLHS, hcoll, hRHS, ih rest2 hrest2]
            | false =>
              -- B3: two non-newline characters in a row
              have hdw2 : List.dropWhile isNewline (d :: rest2) = d :: rest2 := by
                rw [List.dropWhile_cons, if_neg (by simp [hnd])]
              have hcoll : collapseNlAux false (r :: rs) =
                  cleanContent (d :: rest2) := by
                rw [cleanContent, stripEdgeNl, stripLeadNl, hdw2, hst]
                rfl
              obtain ⟨l2, ls2, hls2⟩ : ∃ l2 ls2, linesOf rest2 = l2 :: ls2 := by
                cases hlr : linesOf rest2 with
                | nil => exact absurd hlr (linesOf_ne_nil rest2)
                | cons l2 ls2 => exact ⟨l2, ls2, rfl⟩
              have hlinesd : linesOf (d :: rest2) = (d :: l2) :: ls2 := by
                simp [linesOf, hnd, hls2, consHead]
              have hlinescd : linesOf (c :: d :: rest2) = (c :: d :: l2) :: ls2 := by
                simp [linesOf, hnc, hnd, hls2, consHead]
              have hRHS : specClean (c :: d :: rest2) =
                  c :: specClean (d :: rest2) := by
                rw [specClean, nonEmptyLines, hlinescd, specClean, nonEmptyLines,
                  hlinesd]
                have h1 : ((c :: d :: l2) :: ls2).filter (fun l => !l.isEmpty) =
                    (c :: d :: l2) :: ls2.filter (fun l => !l.isEmpty) := by
                  simp [List.filter]
                have h2 : ((d :: l2) :: ls2).filter (fun l => !l.isEmpty) =
                    (d :: l2) :: ls2.filter (fun l => !l.isEmpty) := by
                  simp [List.filter]
                rw [h1, h2, joinLines_cons_cons]
              rw [hLHS, hcoll, hRHS, ih (d :: rest2) hrest]

/-- The source cleaning pipeline keeps exactly the non-empty lines,
joined by single newlines. -/
theorem cleanContent_eq_specClean (cs : List Char) :
    cleanContent cs = specClean cs :=
  cleanContent_eq_specClean_aux cs.length cs (Nat.le_refl _)

/-- C8 amended: a `pre` element renders as a triple-backtick fenced block
whose language tag is resolved in order (1) `language-xxx` class capture
on the nested code element, (2) a non-empty `data-language` attribute,
(3) the literal `yaml`; and whose interior is the content with
leading/trailing newline runs stripped and every run of 2 or more
consecutive newlines collapsed to a single newline — equivalently, the
non-empty lines of the content joined by single newlines (interior blank
lines are removed entirely, not collapsed to one blank line). -/
theorem c8_codeblock_amended (content : String) (p : PreElement) :
    codeBlockReplacement content p =
      "\n```" ++ resolveLanguage p ++ "\n" ++
        String.mk (specClean content.toList) ++ "\n```\n" ∧
    (∀ lang, p.codeClassName.bind matchLanguageClass = Option.some lang →
      resolveLanguage p = lang) ∧
    (p.codeClassName.bind matchLanguageClass = Option.none →
      ∀ d, p.dataLanguage = Option.some d → d ≠ "" → resolveLanguage p = d) ∧
    (p.codeClassName.bind matchLanguageClass = Option.none →
      (p.dataLanguage = Option.none ∨ p.dataLanguage = Option.some "") →
      resolveLanguage p = "yaml") := by
  refine ⟨?_, ?_, ?_, ?_⟩
  · simp [codeBlockReplacement, cleanContent_eq_specClean]
  · intro lang h
    simp [resolveLanguage, h]
  · intro h d hd hne
    simp [resolveLanguage, h, hd, hne]
  · intro h hd
    rcases hd with hd | hd <;> simp [resolveLanguage, h, hd]

/-- A `pre` with no `code` child and `data-language="ts"`. -/
def preDataLang : PreElement := ⟨Option.none, Option.some "ts"⟩

theorem c8_codeblock_amended_witness :
    codeBlockReplacement "a\n\n\nb" preDataLang =
      "\n```" ++ resolveLanguage preDataLang ++ "\n" ++
        String.mk (specClean ("a\n\n\nb".toList)) ++ "\n```\n" ∧
    resolveLanguage preDataLang = "ts" := by
  have h := c8_codeblock_amended "a\n\n\nb" preDataLang
  exact ⟨h.1, h.2.2.1 rfl "ts" rfl (by decide)⟩

/-! ## The tool-facing size cap (src/server/tools.ts, `registerTools`)

After a successful scrape the handler caps the returned markdown:
`maxLength = 100000`; when `markdownContent.length > maxLength` it
reassigns `markdownContent = markdownContent.substring(0, maxLength)`
and only then builds the truncation message from the reassigned
string's length. -/

def maxLength : Nat := 100000

/-- The content/message pair the handler passes to
`createSuccessResponse`. -/
def scrapeToolResult (data : List Char) : List Char × String :=
  if data.length > maxLength then
    let truncated := data.take maxLength
    (truncated,
      "Content truncated due to size (total size: " ++
        toString truncated.length ++ " characters)")
  else
    (data, "Scraping successful")

/-- C9: rendered markdown of at most 100000 characters is returned
unchanged with the plain success message; anything longer is truncated
to exactly 100000 characters and the message annotates the
truncation. -/
theorem c9_size_cap (md : List Char) :
    (md.length ≤ maxLength →
      scrapeToolResult md = (md, "Scraping successful")) ∧
    (md.length > maxLength →
      (scrapeToolResult md).1 = md.take maxLength ∧
      (scrapeToolResult md).1.length = maxLength ∧
      (scrapeToolResult md).2 =
        "Content truncated due to size (total size: 100000 characters)") := by
  constructor
  · intro h
    rw [scrapeToolResult, if_neg (by omega)]
  · intro h
    have htake : (md.take maxLength).length = maxLength := by
      rw [List.length_take]
      omega
    rw [scrapeToolResult, if_pos h]
    refine ⟨rfl, htake, ?_⟩
    show "Content truncated due to size (total size: " ++
      toString (List.take maxLength md).length ++ " characters)" =
      "Content truncated due to size (total size: 100000 characters)"
    rw [htake]
    decide

theorem c9_size_cap_witness :
    scrapeToolResult ("abc".toList) = ("abc".toList, "Scraping successful") ∧
    (scrapeToolResult (List.replicate 100001 'a')).1.length = maxLength := by
  have h1 := (c9_size_cap ("abc".toList)).1 (by decide)
  have h2 := (c9_size_cap (List.replicate 100001 'a')).2
    (by simp only [List.length_replicate, maxLength]; omega)
  exact ⟨h1, h2.2.1⟩

/-- C10: when truncation happens, the size figure embedded in the
message is the length of the already-truncated content (100000), not
the original pre-truncation length — the message is built after the
reassignment. -/
theorem c10_truncation_message_size (md : List Char)
    (h : md.length > maxLength) :
    (scrapeToolResult md).2 =
      "Content truncated due to size (total size: " ++
        toString (scrapeToolResult md).1.length ++ " characters)" ∧
    (scrapeToolResult md).1.length = maxLength ∧
    (scrapeToolResult md).1.length ≠ md.length := by
  have htake : (md.take maxLength).length = maxLength := by
    rw [List.length_take]
    omega
  rw [scrapeToolResult, if_pos h]
  refine ⟨rfl, htake, ?_⟩
  rw [htake]
  omega

theorem c10_truncation_message_size_witness :
    (scrapeToolResult (List.replicate 100001 'a')).2 =
      "Content truncated due to size (total size: " ++
        toString (scrapeToolResult (List.replicate 100001 'a')).1.length ++
        " characters)" ∧
    (scrapeToolResult (List.replicate 100001 'a')).1.length = maxLength := by
  have h := c10_truncation_message_size (List.replicate 100001 'a')
    (by simp only [List.length_replicate, maxLength]; omega)
  exact ⟨h.1, h.2.1⟩
